import Mathlib

/-!
Verification development for the game-discovery synchronization pipeline.

The Python sources are shallowly embedded: JSON documents become the
inductive `JVal`, database tables become Lean lists, and each store
operation becomes a pure state transition.  Database-level failures
(statement errors, connection drops) are injected through explicit
failure oracles, and a Python exception inside a `try` block is
modelled as an `Except.error` value.  Timestamps are abstract naturals.
-/

/-- A Python/JSON value as handled by the pipeline (`dict`s are
association lists in field order). -/
inductive JVal where
  | jnull
  | jbool (b : Bool)
  | jnum (n : Int)
  | jstr (s : String)
  | jarr (xs : List JVal)
  | jobj (fields : List (String × JVal))

/-- A raw API response document (a Python `dict`). -/
abbrev RawDetail : Type := List (String × JVal)

/-- Python `d.get(k)` on a dict: `None` when the key is absent. -/
def dget (d : List (String × JVal)) (k : String) : Option JVal :=
  (d.find? (fun p => p.1 = k)).map (fun p => p.2)

/-- Python `d.get(k, default)` on a dict. -/
def dgetD (d : List (String × JVal)) (k : String) (v : JVal) : JVal :=
  (dget d k).getD v

/-- Python `v.get(k)` on an arbitrary value: calling `.get` on anything
that is not a dict raises `AttributeError`. -/
def jattrGet : JVal → String → Except String (Option JVal)
  | JVal.jobj f, k => Except.ok (dget f k)
  | _, _ => Except.error "AttributeError"

/-- Python truthiness, as used by `bool(...)`. -/
def pyTruthy : JVal → Bool
  | JVal.jnull => false
  | JVal.jbool b => b
  | JVal.jnum n => n != 0
  | JVal.jstr s => s != ""
  | JVal.jarr xs => !xs.isEmpty
  | JVal.jobj f => !f.isEmpty

/-- Python `s.lower()` (ASCII case folding, character by character). -/
def pyLower (s : String) : String :=
  String.mk (s.toList.map Char.toLower)

/-- Base-10 value of a list of digit characters, as `int(...)` computes
it on the digit-only string. -/
def digitsVal (cs : List Char) : Nat :=
  cs.foldl (fun acc c => acc * 10 + (c.toNat - 48)) 0

/-- `SupabasePipeline.safe_int_convert` (01_steam_to_supabase_pipeline.py,
lines 171-181): `None` stays `None`; a string keeps only its digit
characters and parses them, yielding `None` when no digit remains; any
other value goes through `int(...)`, with `ValueError`/`TypeError`
caught and mapped to `None`. -/
def safe_int_convert (value : Option JVal) : Option Int :=
  match value with
  | none => none
  | some JVal.jnull => none
  | some (JVal.jstr s) =>
      let digits := s.toList.filter Char.isDigit
      if digits.isEmpty then none else some (Int.ofNat (digitsVal digits))
  | some (JVal.jbool b) => some (if b then 1 else 0)
  | some (JVal.jnum n) => some n
  | some (JVal.jarr _) => none
  | some (JVal.jobj _) => none

/-- One row of the `games` table, one field per column of the INSERT in
`SupabasePipeline.insert_game` (01_steam_to_supabase_pipeline.py,
lines 206-287).  JSON-typed columns hold the dumped value verbatim. -/
structure GameRow where
  app_id : Nat
  name : String
  type : Option JVal
  required_age : Option Int
  is_free : Option Bool
  detailed_description : Option JVal
  short_description : Option JVal
  supported_languages : Option JVal
  header_image : Option JVal
  website : Option JVal
  developers : JVal
  publishers : JVal
  price_overview : JVal
  platforms : JVal
  metacritic : Option JVal
  categories : JVal
  genres : JVal
  screenshots : JVal
  movies : JVal
  recommendations : Option JVal
  release_date : JVal
  support_info : JVal
  background : Option JVal
  content_descriptors : JVal
  minimum_requirements : JVal
  recommended_requirements : JVal
  num_reviews : Option JVal
  review_score : Option JVal
  review_score_desc : Option JVal
  total_positive : Option JVal
  total_negative : Option JVal
  total_reviews : Option JVal
  last_updated : Nat

/-- `minimum` extraction from `pc_requirements`, which may be a dict, a
list, or anything else (lines 186-196 of the Steam pipeline). -/
def minReqsOf (details : RawDetail) : JVal :=
  match dgetD details "pc_requirements" (JVal.jobj []) with
  | JVal.jobj f => dgetD f "minimum" (JVal.jstr "")
  | JVal.jarr xs => xs.getD 0 (JVal.jstr "")
  | _ => JVal.jstr ""

/-- `recommended` extraction from `pc_requirements`. -/
def recReqsOf (details : RawDetail) : JVal :=
  match dgetD details "pc_requirements" (JVal.jobj []) with
  | JVal.jobj f => dgetD f "recommended" (JVal.jstr "")
  | JVal.jarr xs => xs.getD 1 (JVal.jstr "")
  | _ => JVal.jstr ""

/-- `is_free` coercion (lines 199-201): absent or `None` stays null,
anything else goes through `bool(...)`. -/
def isFreeOf (details : RawDetail) : Option Bool :=
  match dget details "is_free" with
  | none => none
  | some JVal.jnull => none
  | some v => some (pyTruthy v)

/-- The normalization performed while building the `games` INSERT of
`SupabasePipeline.insert_game`: field-by-field safe-default extraction.
The two chained accesses `details.get('metacritic', {}).get('score')`
and `details.get('recommendations', {}).get('total')` raise when the
container is present but not a dict; every other access is total. -/
def normalizeGame (app_id : Nat) (name : String) (details review_summary : RawDetail)
    (now : Nat) : Except String GameRow :=
  match jattrGet (dgetD details "metacritic" (JVal.jobj [])) "score",
        jattrGet (dgetD details "recommendations" (JVal.jobj [])) "total" with
  | Except.error e, _ => Except.error e
  | _, Except.error e => Except.error e
  | Except.ok mscore, Except.ok rtotal =>
    Except.ok {
      app_id := app_id
      name := name
      type := dget details "type"
      required_age := safe_int_convert (dget details "required_age")
      is_free := isFreeOf details
      detailed_description := dget details "detailed_description"
      short_description := dget details "short_description"
      supported_languages := dget details "supported_languages"
      header_image := dget details "header_image"
      website := dget details "website"
      developers := dgetD details "developers" (JVal.jarr [])
      publishers := dgetD details "publishers" (JVal.jarr [])
      price_overview := dgetD details "price_overview" (JVal.jobj [])
      platforms := dgetD details "platforms" (JVal.jobj [])
      metacritic := mscore
      categories := dgetD details "categories" (JVal.jarr [])
      genres := dgetD details "genres" (JVal.jarr [])
      screenshots := dgetD details "screenshots" (JVal.jarr [])
      movies := dgetD details "movies" (JVal.jarr [])
      recommendations := rtotal
      release_date := dgetD details "release_date" (JVal.jobj [])
      support_info := dgetD details "support_info" (JVal.jobj [])
      background := dget details "background"
      content_descriptors := dgetD details "content_descriptors" (JVal.jobj [])
      minimum_requirements := minReqsOf details
      recommended_requirements := recReqsOf details
      num_reviews := dget review_summary "num_reviews"
      review_score := dget review_summary "review_score"
      review_score_desc := dget review_summary "review_score_desc"
      total_positive := dget review_summary "total_positive"
      total_negative := dget review_summary "total_negative"
      total_reviews := dget review_summary "total_reviews"
      last_updated := now }

/-- One row of the append-only `price_history` table. -/
structure PriceRow where
  app_id : Nat
  price : Option JVal
  discount_percent : Option JVal
  initial_price : Option JVal
  final_price : Option JVal

/-- The conditional `price_history` append of `insert_game`
(lines 289-301): executed only when `'price_overview' in details`;
`details['price_overview'].get(...)` raises when the present value is
not a dict. -/
def pricePointOf (app_id : Nat) (details : RawDetail) : Except String (Option PriceRow) :=
  match dget details "price_overview" with
  | none => Except.ok none
  | some (JVal.jobj f) =>
      Except.ok (some {
        app_id := app_id
        price := dget f "price"
        discount_percent := dget f "discount_percent"
        initial_price := dget f "initial"
        final_price := dget f "final" })
  | some _ => Except.error "AttributeError"

/-- Committed state of the Steam-side store. -/
structure SteamDb where
  games : List GameRow
  price_history : List PriceRow
  game_tags : List (Nat × String)

/-- `INSERT ... ON CONFLICT (app_id) DO UPDATE SET <every column>`:
replace the row when the key exists, append it otherwise. -/
def upsertRow (games : List GameRow) (row : GameRow) : List GameRow :=
  if games.any (fun g => g.app_id = row.app_id) then
    games.map (fun g => if g.app_id = row.app_id then row else g)
  else
    games ++ [row]

/-- Failure oracle for the two statements of `insert_game`: which
database write, if any, raises. -/
inductive DbFail where
  | nofail
  | gamesWrite
  | priceWrite
deriving DecidableEq

/-- `SupabasePipeline.insert_game` (01_steam_to_supabase_pipeline.py,
lines 183-309): build the normalized row, upsert it into `games`,
append a `price_history` row when a price block is present, then
commit; any exception on the way is caught, the transaction is rolled
back, and the call reports failure with the store untouched. -/
def insert_game (st : SteamDb) (app_id : Nat) (name : String)
    (details review_summary : RawDetail) (now : Nat) (fail : DbFail) : Bool × SteamDb :=
  match normalizeGame app_id name details review_summary now with
  | Except.error _ => (false, st)
  | Except.ok row =>
    if fail = DbFail.gamesWrite then (false, st)
    else
      match pricePointOf app_id details with
      | Except.error _ => (false, st)
      | Except.ok none => (true, { st with games := upsertRow st.games row })
      | Except.ok (some pr) =>
        if fail = DbFail.priceWrite then (false, st)
        else (true, { st with
                        games := upsertRow st.games row
                        price_history := st.price_history ++ [pr] })

/-- Sequential `INSERT ... ON CONFLICT (app_id, tag) DO NOTHING` over a
tag batch, as `executemany` issues it: a pair already present (in the
table or earlier in the batch) is silently skipped. -/
def insertTagsConflictIgnore (tbl : List (Nat × String)) (app_id : Nat)
    (tags : List String) : List (Nat × String) :=
  tags.foldl (fun acc t => if (app_id, t) ∈ acc then acc else acc ++ [(app_id, t)]) tbl

/-- `SupabasePipeline.insert_game_tags` (01_steam_to_supabase_pipeline.py,
lines 311-331): empty list is an immediate success; otherwise the batch
is inserted directly, duplicates ignored, with no preceding delete. -/
def insert_game_tags (tbl : List (Nat × String)) (app_id : Nat)
    (tags : List String) : Bool × List (Nat × String) :=
  if tags.isEmpty then (true, tbl)
  else (true, insertTagsConflictIgnore tbl app_id tags)

/-- `SupabasePipeline.update_game_tags` (02_update_recent_reviews.py,
lines 181-205): empty list is an immediate success with no delete;
otherwise all rows of the item are deleted, then the batch is inserted
with duplicates ignored. -/
def update_game_tags (tbl : List (Nat × String)) (app_id : Nat)
    (tags : List String) : Bool × List (Nat × String) :=
  if tags.isEmpty then (true, tbl)
  else (true, insertTagsConflictIgnore (tbl.filter (fun p => p.1 ≠ app_id)) app_id tags)

/-- `SupabasePipeline.get_highest_app_id` (01_steam_to_supabase_pipeline.py,
lines 161-169): `SELECT MAX(app_id) FROM games`, returning 0 when the
table is empty, and also 0 when the query itself raises (the error is
swallowed). -/
def get_highest_app_id (st : SteamDb) (dbError : Bool) : Nat :=
  if dbError then 0
  else
    match (st.games.map (fun g => g.app_id)).max? with
    | some m => m
    | none => 0

/-- Start-position choice of `update_steam_data_to_supabase`
(lines 343-348): an explicit start wins; otherwise resume one past the
highest stored key. -/
def chooseStart (st : SteamDb) (start_app_id : Option Nat) (dbError : Bool) : Nat :=
  match start_app_id with
  | some s => s
  | none => get_highest_app_id st dbError + 1

/-- The resume cursor used when the caller supplies no explicit start
and no database error occurs. -/
def resume_cursor (st : SteamDb) : Nat :=
  chooseStart st none false

/-- `details.get('type', '').lower()` (line 392): raises
`AttributeError` when the stored `type` value is not a string. -/
def typeLower (details : RawDetail) : Except String String :=
  match dgetD details "type" (JVal.jstr "") with
  | JVal.jstr s => Except.ok (pyLower s)
  | _ => Except.error "AttributeError"

/-- The per-item inputs and oracles of one driver iteration: the app
list entry, the detail and review responses, the scraped tags, and the
store-failure oracle for its `insert_game` call. -/
structure AppInput where
  app_id : Nat
  name : String
  details : Option RawDetail
  review_summary : RawDetail
  tags : List String
  fail : DbFail

/-- Running totals of the batch driver. -/
structure Counters where
  processed : Nat
  successful : Nat
  skipped : Nat
  tags_collected : Nat
deriving DecidableEq

/-- One iteration of the driver loop of `update_steam_data_to_supabase`
(lines 377-424): skip on missing/falsy details, skip on non-"game"
type, otherwise insert; on insert success optionally collect tags; an
uncaught exception (non-string `type`) aborts the whole run. -/
def processApp (fetch_tags : Bool) (now : Nat) (st : SteamDb) (c : Counters)
    (a : AppInput) : Except String (SteamDb × Counters) :=
  match a.details with
  | none =>
      Except.ok (st, { c with skipped := c.skipped + 1, processed := c.processed + 1 })
  | some d =>
    if d.isEmpty then
      Except.ok (st, { c with skipped := c.skipped + 1, processed := c.processed + 1 })
    else
      match typeLower d with
      | Except.error e => Except.error e
      | Except.ok t =>
        if t ≠ "game" then
          Except.ok (st, { c with skipped := c.skipped + 1, processed := c.processed + 1 })
        else
          match insert_game st a.app_id a.name d a.review_summary now a.fail with
          | (true, st1) =>
            if fetch_tags ∧ a.tags ≠ [] then
              match insert_game_tags st1.game_tags a.app_id a.tags with
              | (true, tt) =>
                Except.ok ({ st1 with game_tags := tt },
                  { c with successful := c.successful + 1
                           tags_collected := c.tags_collected + a.tags.length
                           processed := c.processed + 1 })
              | (false, _) =>
                Except.ok (st1,
                  { c with successful := c.successful + 1, processed := c.processed + 1 })
            else
              Except.ok (st1,
                { c with successful := c.successful + 1, processed := c.processed + 1 })
          | (false, st1) =>
            Except.ok (st1,
              { c with skipped := c.skipped + 1, processed := c.processed + 1 })

/-- The driver loop over its worklist; an uncaught exception stops the
remaining items (outer `except` of `update_steam_data_to_supabase`). -/
def runApps (fetch_tags : Bool) (now : Nat) :
    List AppInput → SteamDb → Counters → Except String (SteamDb × Counters)
  | [], st, c => Except.ok (st, c)
  | a :: rest, st, c =>
    match processApp fetch_tags now st c a with
    | Except.error e => Except.error e
    | Except.ok (st1, c1) => runApps fetch_tags now rest st1 c1

/-- The row stored for a detail document that carries only a `type`
field: every optional field at its null/empty-JSON default. -/
def onlyTypeRow (app_id : Nat) (name : String) (ty : String) (now : Nat) : GameRow := {
  app_id := app_id
  name := name
  type := some (JVal.jstr ty)
  required_age := none
  is_free := none
  detailed_description := none
  short_description := none
  supported_languages := none
  header_image := none
  website := none
  developers := JVal.jarr []
  publishers := JVal.jarr []
  price_overview := JVal.jobj []
  platforms := JVal.jobj []
  metacritic := none
  categories := JVal.jarr []
  genres := JVal.jarr []
  screenshots := JVal.jarr []
  movies := JVal.jarr []
  recommendations := none
  release_date := JVal.jobj []
  support_info := JVal.jobj []
  background := none
  content_descriptors := JVal.jobj []
  minimum_requirements := JVal.jstr ""
  recommended_requirements := JVal.jstr ""
  num_reviews := none
  review_score := none
  review_score_desc := none
  total_positive := none
  total_negative := none
  total_reviews := none
  last_updated := now }

/-- A minimal concrete stored row with the given key (used for concrete
store states in witnesses). -/
def keyRow (id : Nat) : GameRow :=
  onlyTypeRow id "g" "game" 0

/-- A concrete stored row that the staleness sweep selects: marked
coming-soon and last updated at time 0. -/
def staleRow (id : Nat) : GameRow :=
  { keyRow id with release_date := JVal.jobj [("coming_soon", JVal.jbool true)] }

/-- The `(release_date::jsonb->>'coming_soon')::boolean = true` test of
the staleness sweep, for the boolean-typed `coming_soon` payloads the
pipeline writes into the dumped `release_date` JSON. -/
def comingSoonFlag (v : JVal) : Bool :=
  match v with
  | JVal.jobj f =>
    match dget f "coming_soon" with
    | some (JVal.jbool b) => b
    | _ => false
  | _ => false

/-- The WHERE clause of the sweep (04_check_coming_soon_updates.py,
lines 203-209): coming-soon and last updated strictly before
`current_date - 7 days`. -/
def stalePred (today : Nat) (g : GameRow) : Bool :=
  comingSoonFlag g.release_date && decide (g.last_updated + 7 < today)

/-- The selected batch: stale rows ordered by `last_updated` ascending,
`LIMIT 1000`. -/
def selectStale (games : List GameRow) (today : Nat) : List GameRow :=
  (List.insertionSort (fun a b => a.last_updated ≤ b.last_updated)
    (games.filter (stalePred today))).take 1000

/-- Committed state of the two tables the sweep moves rows between. -/
structure CheckDb where
  games : List GameRow
  checking : List GameRow

/-- Failure oracle for the two statements of the move: which one, if
any, raises. -/
inductive MoveFail where
  | nofail
  | insertFail
  | deleteFail
deriving DecidableEq

/-- `SupabasePipeline.move_coming_soon_games_to_checking_table`
(04_check_coming_soon_updates.py, lines 199-283): select the stale
batch, INSERT those rows into `games_checking_for_updates`, DELETE them
from `games`, then commit; any exception rolls the transaction back and
the call returns 0 with both tables untouched.  (The surrounding
`session_replication_role` toggling only relaxes foreign-key checks and
does not change table contents, so it is not part of the state.) -/
def move_coming_soon_games_to_checking_table (st : CheckDb) (today : Nat)
    (fail : MoveFail) : Nat × CheckDb :=
  let sel := selectStale st.games today
  if sel.isEmpty then (0, st)
  else if fail = MoveFail.insertFail then (0, st)
  else if fail = MoveFail.deleteFail then (0, st)
  else
    let ids := sel.map (fun g => g.app_id)
    let moved := st.games.filter (fun g => g.app_id ∈ ids)
    (moved.length,
      { games := st.games.filter (fun g => g.app_id ∉ ids)
        checking := st.checking ++ moved })

/-- One row of `games_nintendo` / `games_nintendo_staging`
(03_collect_all_nintendo_games_clean.py): the three TEXT natural-key
columns, then the remaining payload columns of
`insert_game_to_staging` in source order. -/
structure NRecord where
  fs_id : Option String
  change_date : Option String
  title : Option String
  sorting_title : Option JVal
  title_master : Option JVal
  title_extras : Option JVal
  publisher : Option JVal
  release_date : Option JVal
  pretty_date : Option JVal
  dates_released : Option JVal
  price_regular : Option JVal
  price_discounted : Option JVal
  price_sorting : Option JVal
  price_lowest : Option JVal
  price_has_discount : Option JVal
  price_discount_percentage : Option JVal
  game_categories : Option JVal
  pretty_game_categories : Option JVal
  age_rating_type : Option JVal
  age_rating_value : Option JVal
  pretty_agerating : Option JVal
  excerpt : Option JVal
  product_catalog_description : Option JVal
  copyright : Option JVal
  url : Option JVal
  image_url_sq : Option JVal
  image_url_h2x1 : Option JVal
  wishlist_email_square_image_url : Option JVal
  wishlist_email_banner640w_image_url : Option JVal
  wishlist_email_banner460w_image_url : Option JVal
  players_to : Option JVal
  players_from : Option JVal
  language_availability : Option JVal
  cloud_saves : Option JVal
  digital_version : Option JVal
  physical_version : Option JVal
  demo_availability : Option JVal
  eshop_removed : Option JVal
  downloads_rank : Option JVal
  hits : Option JVal
  system_type : Option JVal
  system_names : Option JVal
  playable_on : Option JVal
  originally_for : Option JVal
  compatible_controller : Option JVal
  play_mode_tv_mode : Option JVal
  play_mode_handheld_mode : Option JVal
  play_mode_tabletop_mode : Option JVal
  paid_subscription_required : Option JVal
  paid_subscription_online_play : Option JVal
  club_nintendo : Option JVal
  switch_game_voucher : Option JVal
  nsuid : Option JVal
  related_nsuids : Option JVal
  priority : Option JVal
  deprioritise : Option JVal
  pg : Option JVal
  _version : Option JVal
  type : Option JVal

/-- SQL equality on two nullable TEXT columns: TRUE only when both are
non-NULL and equal (a NULL comparison is unknown and matches nothing in
the EXISTS subquery). -/
def sqlTextEq : Option String → Option String → Bool
  | some a, some b => a = b
  | _, _ => false

/-- The correlated `EXISTS` condition of the merge: equality on the
natural key `(fs_id, change_date, title)`. -/
def sameKey (m s : NRecord) : Bool :=
  sqlTextEq m.fs_id s.fs_id && sqlTextEq m.change_date s.change_date
    && sqlTextEq m.title s.title

/-- State of the Nintendo tables. -/
structure NintendoDb where
  main : List NRecord
  staging : List NRecord

/-- `MassiveNintendoPipeline.merge_staging_to_main`
(03_collect_all_nintendo_games_clean.py, lines 476-526):
`INSERT INTO games_nintendo SELECT ... FROM games_nintendo_staging s
WHERE NOT EXISTS (SELECT 1 FROM games_nintendo m WHERE <same key>)`,
returning the statement rowcount; an exception rolls back and returns
0.  The subquery sees `games_nintendo` as of statement start, so every
staged row is checked against the pre-merge main table. -/
def merge_staging_to_main (db : NintendoDb) (fail : Bool) : Nat × NintendoDb :=
  if fail then (0, db)
  else
    let inserted := db.staging.filter (fun s => !(db.main.any (fun m => sameKey m s)))
    (inserted.length, { db with main := db.main ++ inserted })

/-- The shape condition under which the chained safe-default getters of
`insert_game` cannot raise: each of the three containers read with a
chained `.get` (or subscripted then `.get`) is either absent or a dict. -/
def goodShapes (details : RawDetail) : Prop :=
  (∀ v, dget details "metacritic" = some v → ∃ f, v = JVal.jobj f)
  ∧ (∀ v, dget details "recommendations" = some v → ∃ f, v = JVal.jobj f)
  ∧ (∀ v, dget details "price_overview" = some v → ∃ f, v = JVal.jobj f)

/-- A concrete Nintendo record with the given natural key and empty
payload (used for concrete merge scenarios). -/
def nrecMk (k d t : String) : NRecord :=
  ⟨some k, some d, some t,
    none, none, none, none, none, none, none, none, none, none, none,
    none, none, none, none, none, none, none, none, none, none, none,
    none, none, none, none, none, none, none, none, none, none, none,
    none, none, none, none, none, none, none, none, none, none, none,
    none, none, none, none, none, none, none, none, none, none, none,
    none⟩

/-- A concrete detail document carrying only a price block. -/
def dPrice : RawDetail :=
  [("price_overview", JVal.jobj [("price", JVal.jnum 999)])]

/-- A concrete detail document carrying only a "game" type. -/
def dGame : RawDetail :=
  [("type", JVal.jstr "game")]

/-- The price-history row extracted from `dPrice` for item 1. -/
def prWitness : PriceRow :=
  ⟨1, some (JVal.jnum 999), none, none, none⟩

/-! Helper lemmas about the embedded operations. -/

theorem foldl_max_init_le (l : List Nat) : ∀ a : Nat, a ≤ l.foldl max a := by
  induction l with
  | nil => intro a; simp
  | cons b bs ih =>
    intro a
    exact le_trans (le_max_left a b) (ih (max a b))

theorem foldl_max_le_of_mem (l : List Nat) :
    ∀ (a x : Nat), x ∈ l → x ≤ l.foldl max a := by
  induction l with
  | nil => intro a x hx; cases hx
  | cons b bs ih =>
    intro a x hx
    rcases List.mem_cons.mp hx with h | h
    · subst h
      exact le_trans (le_max_right a x) (foldl_max_init_le bs (max a x))
    · exact ih (max a b) x h

theorem foldl_max_mem (l : List Nat) :
    ∀ a : Nat, l.foldl max a = a ∨ l.foldl max a ∈ l := by
  induction l with
  | nil => intro a; left; rfl
  | cons b bs ih =>
    intro a
    rcases ih (max a b) with h | h
    · rcases max_choice a b with hm | hm
      · left; simpa [hm] using h
      · right
        rw [List.foldl_cons, h, hm]
        exact List.mem_cons_self b bs
    · right; exact List.mem_cons_of_mem b h

theorem countP_replace_eq (games : List GameRow) (row : GameRow) :
    (games.map (fun g => if g.app_id = row.app_id then row else g)).countP
        (fun g => g.app_id = row.app_id) =
      games.countP (fun g => g.app_id = row.app_id) := by
  induction games with
  | nil => rfl
  | cons g gs ih =>
    by_cases hg : g.app_id = row.app_id
    · simp [List.countP_cons, hg, ih]
    · simp [List.countP_cons, hg, ih]

theorem countP_le_one_of_nodup_keys (games : List GameRow) (id : Nat)
    (h : (games.map (fun g => g.app_id)).Nodup) :
    games.countP (fun g => g.app_id = id) ≤ 1 := by
  induction games with
  | nil => simp
  | cons g gs ih =>
    simp only [List.map_cons, List.nodup_cons] at h
    by_cases hg : g.app_id = id
    · have h0 : gs.countP (fun g => g.app_id = id) = 0 := by
        rw [List.countP_eq_zero]
        intro x hx hxid
        apply h.1
        have hxg : x.app_id = g.app_id := by
          rw [hg]; simpa using hxid
        rw [← hxg]
        exact List.mem_map_of_mem (fun g => g.app_id) hx
      simp [List.countP_cons, hg, h0]
    · simp only [List.countP_cons, hg]
      simpa using ih h.2

theorem countP_upsertRow (games : List GameRow) (row : GameRow)
    (h : (games.map (fun g => g.app_id)).Nodup) :
    (upsertRow games row).countP (fun g => g.app_id = row.app_id) = 1 := by
  unfold upsertRow
  by_cases hany : games.any (fun g => g.app_id = row.app_id) = true
  · rw [if_pos hany, countP_replace_eq]
    rcases List.any_eq_true.mp hany with ⟨g, hg, hgid⟩
    have hpos : 0 < games.countP (fun g => g.app_id = row.app_id) :=
      List.countP_pos_iff.mpr ⟨g, hg, hgid⟩
    have hle := countP_le_one_of_nodup_keys games row.app_id h
    omega
  · rw [if_neg hany, List.countP_append]
    have hfalse : games.any (fun g => g.app_id = row.app_id) = false := by
      simpa using hany
    have h0 : games.countP (fun g => g.app_id = row.app_id) = 0 := by
      rw [List.countP_eq_zero]
      intro x hx
      simp only [List.any_eq_false] at hfalse
      exact hfalse x hx
    simp [h0, List.countP_cons]

theorem keys_replace_eq (games : List GameRow) (row : GameRow) :
    (games.map (fun g => if g.app_id = row.app_id then row else g)).map
        (fun g => g.app_id) =
      games.map (fun g => g.app_id) := by
  induction games with
  | nil => rfl
  | cons g gs ih =>
    simp only [List.map_cons, ih]
    congr 1
    by_cases hg : g.app_id = row.app_id
    · simp [hg]
    · simp [hg]

theorem nodup_keys_upsertRow (games : List GameRow) (row : GameRow)
    (h : (games.map (fun g => g.app_id)).Nodup) :
    ((upsertRow games row).map (fun g => g.app_id)).Nodup := by
  unfold upsertRow
  by_cases hany : games.any (fun g => g.app_id = row.app_id) = true
  · rw [if_pos hany, keys_replace_eq]; exact h
  · rw [if_neg hany, List.map_append, List.nodup_append]
    refine ⟨h, by simp, ?_⟩
    intro x hx hxmem
    simp only [List.map_cons, List.map_nil, List.mem_singleton] at hxmem
    rcases List.mem_map.mp hx with ⟨g, hgmem, hgid⟩
    apply hany
    apply List.any_eq_true.mpr
    refine ⟨g, hgmem, ?_⟩
    simp [hgid, hxmem]

theorem find?_replace (games : List GameRow) (row : GameRow)
    (hany : games.any (fun g => g.app_id = row.app_id) = true) :
    (games.map (fun g => if g.app_id = row.app_id then row else g)).find?
      (fun g => g.app_id = row.app_id) = some row := by
  induction games with
  | nil => simp at hany
  | cons g gs ih =>
    simp only [List.map_cons]
    by_cases hg : g.app_id = row.app_id
    · rw [if_pos hg, List.find?_cons_of_pos _ (by simp)]
    · rw [if_neg hg, List.find?_cons_of_neg _ (by simpa using hg)]
      apply ih
      rcases List.any_eq_true.mp hany with ⟨x, hx, hxid⟩
      rcases List.mem_cons.mp hx with hx1 | hx1
      · exact absurd (by simpa [hx1] using hxid) hg
      · exact List.any_eq_true.mpr ⟨x, hx1, hxid⟩

theorem find?_upsertRow (games : List GameRow) (row : GameRow) :
    (upsertRow games row).find? (fun g => g.app_id = row.app_id) = some row := by
  unfold upsertRow
  by_cases hany : games.any (fun g => g.app_id = row.app_id) = true
  · rw [if_pos hany]; exact find?_replace games row hany
  · rw [if_neg hany, List.find?_append]
    have hnone : games.find? (fun g => g.app_id = row.app_id) = none := by
      rw [List.find?_eq_none]
      intro g hg
      have hfalse : games.any (fun g => g.app_id = row.app_id) = false := by
        simpa using hany
      simp only [List.any_eq_false] at hfalse
      exact hfalse g hg
    simp [hnone, List.find?_cons]

theorem mem_insertTagsConflictIgnore (tags : List String) :
    ∀ (tbl : List (Nat × String)) (app_id : Nat) (p : Nat × String),
      p ∈ insertTagsConflictIgnore tbl app_id tags ↔
        p ∈ tbl ∨ (p.1 = app_id ∧ p.2 ∈ tags) := by
  induction tags with
  | nil => intro tbl app_id p; simp [insertTagsConflictIgnore]
  | cons t ts ih =>
    intro tbl app_id p
    have hstep : insertTagsConflictIgnore tbl app_id (t :: ts) =
        insertTagsConflictIgnore
          (if (app_id, t) ∈ tbl then tbl else tbl ++ [(app_id, t)]) app_id ts := by
      simp [insertTagsConflictIgnore]
    rw [hstep, ih]
    by_cases hmem : (app_id, t) ∈ tbl
    · simp only [if_pos hmem]
      constructor
      · rintro (h | ⟨h1, h2⟩)
        · exact Or.inl h
        · exact Or.inr ⟨h1, List.mem_cons_of_mem t h2⟩
      · rintro (h | ⟨h1, h2⟩)
        · exact Or.inl h
        · rcases List.mem_cons.mp h2 with h2 | h2
          · left
            have hp : p = (app_id, t) := by
              cases p; simp_all
            rw [hp]; exact hmem
          · exact Or.inr ⟨h1, h2⟩
    · simp only [if_neg hmem, List.mem_append, List.mem_singleton]
      constructor
      · rintro ((h | h) | ⟨h1, h2⟩)
        · exact Or.inl h
        · cases p
          simp only [Prod.mk.injEq] at h
          exact Or.inr ⟨h.1, by simp [h.2]⟩
        · exact Or.inr ⟨h1, List.mem_cons_of_mem t h2⟩
      · rintro (h | ⟨h1, h2⟩)
        · exact Or.inl (Or.inl h)
        · rcases List.mem_cons.mp h2 with h2 | h2
          · cases p
            simp only at h1 h2
            subst h1; subst h2
            exact Or.inl (Or.inr rfl)
          · exact Or.inr ⟨h1, h2⟩

theorem nodup_insertTagsConflictIgnore (tags : List String) :
    ∀ (tbl : List (Nat × String)) (app_id : Nat), tbl.Nodup →
      (insertTagsConflictIgnore tbl app_id tags).Nodup := by
  induction tags with
  | nil => intro tbl app_id h; simpa [insertTagsConflictIgnore] using h
  | cons t ts ih =>
    intro tbl app_id h
    have hstep : insertTagsConflictIgnore tbl app_id (t :: ts) =
        insertTagsConflictIgnore
          (if (app_id, t) ∈ tbl then tbl else tbl ++ [(app_id, t)]) app_id ts := by
      simp [insertTagsConflictIgnore]
    rw [hstep]
    by_cases hmem : (app_id, t) ∈ tbl
    · rw [if_pos hmem]; exact ih tbl app_id h
    · rw [if_neg hmem]
      apply ih
      simp [List.nodup_append, h, hmem]

theorem filter_ne_insertTagsConflictIgnore (tags : List String) :
    ∀ (tbl : List (Nat × String)) (app_id : Nat),
      (insertTagsConflictIgnore tbl app_id tags).filter (fun p => p.1 ≠ app_id) =
        tbl.filter (fun p => p.1 ≠ app_id) := by
  induction tags with
  | nil => intro tbl app_id; simp [insertTagsConflictIgnore]
  | cons t ts ih =>
    intro tbl app_id
    have hstep : insertTagsConflictIgnore tbl app_id (t :: ts) =
        insertTagsConflictIgnore
          (if (app_id, t) ∈ tbl then tbl else tbl ++ [(app_id, t)]) app_id ts := by
      simp [insertTagsConflictIgnore]
    rw [hstep]
    by_cases hmem : (app_id, t) ∈ tbl
    · rw [if_pos hmem]; exact ih tbl app_id
    · rw [if_neg hmem, ih, List.filter_append]
      simp

theorem mem_selectStale (games : List GameRow) (today : Nat) (g : GameRow)
    (h : g ∈ selectStale games today) : g ∈ games := by
  unfold selectStale at h
  have h1 := List.take_subset 1000 _ h
  have h2 := (List.perm_insertionSort
    (fun a b : GameRow => a.last_updated ≤ b.last_updated) _).subset h1
  exact (List.mem_filter.mp h2).1

theorem sqlTextEq_trans_right {a b c : Option String}
    (h1 : sqlTextEq a c = true) (h2 : sqlTextEq b c = true) : sqlTextEq a b = true := by
  cases a <;> cases b <;> cases c <;> simp_all [sqlTextEq]

theorem sameKey_trans_right {m t s : NRecord}
    (h1 : sameKey m s = true) (h2 : sameKey t s = true) : sameKey m t = true := by
  unfold sameKey at h1 h2 ⊢
  simp only [Bool.and_eq_true] at h1 h2 ⊢
  exact ⟨⟨sqlTextEq_trans_right h1.1.1 h2.1.1, sqlTextEq_trans_right h1.1.2 h2.1.2⟩,
    sqlTextEq_trans_right h1.2 h2.2⟩

theorem normalizeGame_time (app_id : Nat) (name : String)
    (details review_summary : RawDetail) (t1 t2 : Nat) (row : GameRow)
    (h : normalizeGame app_id name details review_summary t1 = Except.ok row) :
    normalizeGame app_id name details review_summary t2 =
      Except.ok { row with last_updated := t2 } := by
  unfold normalizeGame at h ⊢
  cases h1 : jattrGet (dgetD details "metacritic" (JVal.jobj [])) "score" with
  | error e =>
    rw [h1] at h
    exact absurd h (by simp)
  | ok mscore =>
    cases h2 : jattrGet (dgetD details "recommendations" (JVal.jobj [])) "total" with
    | error e =>
      rw [h1, h2] at h
      exact absurd h (by simp)
    | ok rtotal =>
      rw [h1, h2] at h
      simp only [Except.ok.injEq] at h
      rw [← h]

/-! Claim theorems. -/

/-- C9: `safe_int_convert` maps "17+" to 17, "M" to None, None to None
and 21 to 21; in general a string input yields the integer parsed from
the concatenation of its digit characters, and None when it has no
digit. -/
theorem safe_int_convert_spec :
    safe_int_convert (some (JVal.jstr "17+")) = some 17
    ∧ safe_int_convert (some (JVal.jstr "M")) = none
    ∧ safe_int_convert none = none
    ∧ safe_int_convert (some JVal.jnull) = none
    ∧ safe_int_convert (some (JVal.jnum 21)) = some 21
    ∧ (∀ s : String, (∀ c ∈ s.toList, ¬ c.isDigit = true) →
        safe_int_convert (some (JVal.jstr s)) = none)
    ∧ (∀ s : String, (∃ c ∈ s.toList, c.isDigit = true) →
        safe_int_convert (some (JVal.jstr s)) =
          some (Int.ofNat (digitsVal (s.toList.filter Char.isDigit)))) := by
  refine ⟨rfl, rfl, rfl, rfl, rfl, ?_, ?_⟩
  · intro s h
    have hnil : s.toList.filter Char.isDigit = [] := by
      rw [List.filter_eq_nil_iff]
      intro x hx
      simpa using h x hx
    have heq : safe_int_convert (some (JVal.jstr s)) =
        (if (s.toList.filter Char.isDigit).isEmpty then none
         else some (Int.ofNat (digitsVal (s.toList.filter Char.isDigit)))) := rfl
    rw [heq, hnil]
    rfl
  · intro s h
    rcases h with ⟨c, hc, hcd⟩
    have hne : s.toList.filter Char.isDigit ≠ [] :=
      List.ne_nil_of_mem (List.mem_filter.mpr ⟨hc, hcd⟩)
    have hfalse : (s.toList.filter Char.isDigit).isEmpty = false := by
      rcases hcase : s.toList.filter Char.isDigit with _ | ⟨x, xs⟩
      · exact absurd hcase hne
      · rfl
    have heq : safe_int_convert (some (JVal.jstr s)) =
        (if (s.toList.filter Char.isDigit).isEmpty then none
         else some (Int.ofNat (digitsVal (s.toList.filter Char.isDigit)))) := rfl
    rw [heq, hfalse]
    rfl

/-- C9 witness: the two conditional clauses applied at concrete
strings. -/
theorem safe_int_convert_spec_witness :
    safe_int_convert (some (JVal.jstr "abc")) = none
    ∧ safe_int_convert (some (JVal.jstr "a1b2")) = some 12 := by
  constructor
  · exact safe_int_convert_spec.2.2.2.2.2.1 "abc" (by decide)
  · exact (safe_int_convert_spec.2.2.2.2.2.2 "a1b2" ⟨'1', by decide, by decide⟩).trans
      (by decide)

/-- C10 (implicit): any database error while reading the highest stored
key is swallowed and reported as 0, the very value returned for an
empty store, so the resume logic silently starts the cursor at key 1
instead of surfacing the failure. -/
theorem get_highest_app_id_swallows_errors (st : SteamDb) :
    get_highest_app_id st true = 0
    ∧ get_highest_app_id { games := [], price_history := [], game_tags := [] } false = 0
    ∧ chooseStart st none true = 1 :=
  ⟨rfl, rfl, rfl⟩

/-- C4 counterexample: on the empty store the resume cursor computed by
the caller (`get_highest_app_id() + 1`) is 1, not 0 as claimed. -/
theorem resume_cursor_empty_is_one :
    resume_cursor { games := [], price_history := [], game_tags := [] } = 1
    ∧ resume_cursor { games := [], price_history := [], game_tags := [] } ≠ 0 :=
  ⟨rfl, by decide⟩

/-- C4 (amended): with no explicit start, the resume cursor is one past
the highest stored key — strictly above every stored key and equal to
some stored key plus one — and is 1 (not 0) on the empty store; an
explicit start is used verbatim; on the store with keys 5, 9, 12 the
cursor is 13. -/
theorem resume_cursor_one_past_highest (st : SteamDb) :
    (∀ g ∈ st.games, g.app_id < resume_cursor st)
    ∧ (st.games ≠ [] → ∃ g ∈ st.games, resume_cursor st = g.app_id + 1)
    ∧ (st.games = [] → resume_cursor st = 1)
    ∧ (∀ s : Nat, chooseStart st (some s) false = s)
    ∧ resume_cursor ⟨[keyRow 5, keyRow 9, keyRow 12], [], []⟩ = 13 := by
  have hunfold : resume_cursor st =
      (match (st.games.map (fun g => g.app_id)).max? with
       | some m => m
       | none => 0) + 1 := rfl
  refine ⟨?_, ?_, ?_, fun s => rfl, rfl⟩
  · intro g hg
    have hmem : g.app_id ∈ st.games.map (fun g => g.app_id) :=
      List.mem_map_of_mem (fun g => g.app_id) hg
    rw [hunfold]
    rcases hids : st.games.map (fun g => g.app_id) with _ | ⟨a, as⟩
    · rw [hids] at hmem; cases hmem
    · rw [hids] at hmem
      have hle : g.app_id ≤ as.foldl max a := by
        rcases List.mem_cons.mp hmem with h | h
        · rw [h]; exact foldl_max_init_le as a
        · exact foldl_max_le_of_mem as a g.app_id h
      rw [hids]
      show g.app_id < as.foldl max a + 1
      omega
  · intro hne
    rcases hids : st.games.map (fun g => g.app_id) with _ | ⟨a, as⟩
    · exact absurd (List.map_eq_nil_iff.mp hids) hne
    · have hmem : as.foldl max a ∈ a :: as := by
        rcases foldl_max_mem as a with h | h
        · rw [h]; exact List.mem_cons_self a as
        · exact List.mem_cons_of_mem a h
      rw [← hids] at hmem
      rcases List.mem_map.mp hmem with ⟨g, hg, hgid⟩
      refine ⟨g, hg, ?_⟩
      rw [hunfold, hids, hgid]
      show as.foldl max a + 1 = as.foldl max a + 1
      rfl
  · intro hnil
    rw [hunfold, hnil]
    rfl

/-- C4 witness: the conditional clauses applied to the concrete store
holding exactly the keys 5, 9 and 12. -/
theorem resume_cursor_one_past_highest_witness :
    ((keyRow 12).app_id < resume_cursor ⟨[keyRow 5, keyRow 9, keyRow 12], [], []⟩)
    ∧ (∃ g ∈ [keyRow 5, keyRow 9, keyRow 12],
        resume_cursor ⟨[keyRow 5, keyRow 9, keyRow 12], [], []⟩ = g.app_id + 1) := by
  have h := resume_cursor_one_past_highest ⟨[keyRow 5, keyRow 9, keyRow 12], [], []⟩
  exact ⟨h.1 (keyRow 12) (by simp), h.2.1 (by simp)⟩

/-- Safe-default extraction through a chained getter whose container,
when present, is a dict. -/
theorem jattrGet_dgetD_obj (details : RawDetail) (key sub : String)
    (h : ∀ v, dget details key = some v → ∃ f, v = JVal.jobj f) :
    ∃ f, dgetD details key (JVal.jobj []) = JVal.jobj f
      ∧ jattrGet (dgetD details key (JVal.jobj [])) sub = Except.ok (dget f sub)
      ∧ (dget details key = none → f = []) := by
  cases hd : dget details key with
  | none =>
    refine ⟨[], ?_, ?_, fun _ => rfl⟩
    · simp [dgetD, hd]
    · simp [dgetD, hd, jattrGet]
  | some v =>
    rcases h v hd with ⟨f, rfl⟩
    refine ⟨f, ?_, ?_, ?_⟩
    · simp [dgetD, hd]
    · simp [dgetD, hd, jattrGet]
    · intro hcon
      simp [hd] at hcon

/-- A failed `insert_game` call leaves the store exactly as it was. -/
theorem insert_game_fst_false (st : SteamDb) (app_id : Nat) (nm : String)
    (details review_summary : RawDetail) (now : Nat) (fail : DbFail)
    (hf : (insert_game st app_id nm details review_summary now fail).1 = false) :
    insert_game st app_id nm details review_summary now fail = (false, st) := by
  cases hn : normalizeGame app_id nm details review_summary now with
  | error e => simp [insert_game, hn]
  | ok row =>
    by_cases hfg : fail = DbFail.gamesWrite
    · simp [insert_game, hn, hfg]
    · cases hp : pricePointOf app_id details with
      | error e => simp [insert_game, hn, hp, hfg]
      | ok opr =>
        cases opr with
        | none => simp [insert_game, hn, hp, hfg] at hf
        | some pr =>
          by_cases hfp : fail = DbFail.priceWrite
          · simp [insert_game, hn, hp, hfg, hfp]
          · simp [insert_game, hn, hp, hfg, hfp] at hf

/-- A successful `insert_game` call commits the row upsert and the
conditional price append together. -/
theorem insert_game_fst_true (st : SteamDb) (app_id : Nat) (nm : String)
    (details review_summary : RawDetail) (now : Nat) (fail : DbFail)
    (hf : (insert_game st app_id nm details review_summary now fail).1 = true) :
    ∃ row opr, normalizeGame app_id nm details review_summary now = Except.ok row
      ∧ pricePointOf app_id details = Except.ok opr
      ∧ insert_game st app_id nm details review_summary now fail =
          (true, { st with games := upsertRow st.games row,
                           price_history := st.price_history ++ opr.toList }) := by
  cases hn : normalizeGame app_id nm details review_summary now with
  | error e => simp [insert_game, hn] at hf
  | ok row =>
    by_cases hfg : fail = DbFail.gamesWrite
    · simp [insert_game, hn, hfg] at hf
    · cases hp : pricePointOf app_id details with
      | error e => simp [insert_game, hn, hp, hfg] at hf
      | ok opr =>
        cases opr with
        | none =>
          refine ⟨row, none, rfl, rfl, ?_⟩
          simp [insert_game, hn, hp, hfg]
        | some pr =>
          by_cases hfp : fail = DbFail.priceWrite
          · simp [insert_game, hn, hp, hfg, hfp] at hf
          · refine ⟨row, some pr, rfl, rfl, ?_⟩
            simp [insert_game, hn, hp, hfg, hfp]

/-- The normalized row always carries the requested key. -/
theorem normalizeGame_app_id (app_id : Nat) (nm : String)
    (details review_summary : RawDetail) (now : Nat) (row : GameRow)
    (h : normalizeGame app_id nm details review_summary now = Except.ok row) :
    row.app_id = app_id := by
  unfold normalizeGame at h
  cases h1 : jattrGet (dgetD details "metacritic" (JVal.jobj [])) "score" with
  | error e =>
    rw [h1] at h
    exact absurd h (by simp)
  | ok mscore =>
    cases h2 : jattrGet (dgetD details "recommendations" (JVal.jobj [])) "total" with
    | error e =>
      rw [h1, h2] at h
      exact absurd h (by simp)
    | ok rtotal =>
      rw [h1, h2] at h
      simp only [Except.ok.injEq] at h
      rw [← h]

/-- C5 (amended): normalization succeeds on every detail document whose
optional containers (metacritic, recommendations, price block), when
present, are dicts; a missing container yields the null/empty default
in the produced record, and a missing price block also means no price
row.  (A container present with a non-dict shape instead raises; see
the counterexample.) -/
theorem normalize_total_safe_defaults (app_id : Nat) (nm : String)
    (details review_summary : RawDetail) (now : Nat) (h : goodShapes details) :
    ∃ row, normalizeGame app_id nm details review_summary now = Except.ok row
      ∧ (dget details "metacritic" = none → row.metacritic = none)
      ∧ (dget details "recommendations" = none → row.recommendations = none)
      ∧ (dget details "pc_requirements" = none →
          row.minimum_requirements = JVal.jstr ""
            ∧ row.recommended_requirements = JVal.jstr "")
      ∧ (dget details "price_overview" = none →
          row.price_overview = JVal.jobj []
            ∧ pricePointOf app_id details = Except.ok none)
      ∧ (∃ opr, pricePointOf app_id details = Except.ok opr) := by
  obtain ⟨hm, hr, hp⟩ := h
  obtain ⟨f1, hf1, hg1, hn1⟩ := jattrGet_dgetD_obj details "metacritic" "score" hm
  obtain ⟨f2, hf2, hg2, hn2⟩ := jattrGet_dgetD_obj details "recommendations" "total" hr
  have hprice : ∃ opr, pricePointOf app_id details = Except.ok opr := by
    cases hd : dget details "price_overview" with
    | none => exact ⟨none, by simp [pricePointOf, hd]⟩
    | some v =>
      rcases hp v hd with ⟨f, rfl⟩
      exact ⟨some ⟨app_id, dget f "price", dget f "discount_percent",
        dget f "initial", dget f "final"⟩, by simp [pricePointOf, hd]⟩
  cases hnorm : normalizeGame app_id nm details review_summary now with
  | error e =>
    exfalso
    unfold normalizeGame at hnorm
    rw [hg1, hg2] at hnorm
    simp at hnorm
  | ok row =>
    have hrow : row.metacritic = dget f1 "score"
        ∧ row.recommendations = dget f2 "total"
        ∧ row.minimum_requirements = minReqsOf details
        ∧ row.recommended_requirements = recReqsOf details
        ∧ row.price_overview = dgetD details "price_overview" (JVal.jobj []) := by
      unfold normalizeGame at hnorm
      rw [hg1, hg2] at hnorm
      simp only [Except.ok.injEq] at hnorm
      rw [← hnorm]
      exact ⟨rfl, rfl, rfl, rfl, rfl⟩
    refine ⟨row, rfl, ?_, ?_, ?_, ?_, hprice⟩
    · intro hnone
      rw [hrow.1, hn1 hnone]
      rfl
    · intro hnone
      rw [hrow.2.1, hn2 hnone]
      rfl
    · intro hnone
      have hd : dgetD details "pc_requirements" (JVal.jobj []) = JVal.jobj [] := by
        show (dget details "pc_requirements").getD (JVal.jobj []) = JVal.jobj []
        rw [hnone]
        rfl
      constructor
      · rw [hrow.2.2.1]
        unfold minReqsOf
        rw [hd]
        rfl
      · rw [hrow.2.2.2.1]
        unfold recReqsOf
        rw [hd]
        rfl
    · intro hnone
      constructor
      · rw [hrow.2.2.2.2]
        simp [dgetD, hnone]
      · simp [pricePointOf, hnone]

/-- C5 counterexample: a detail document whose metacritic block is
present but not a dict makes the extraction raise; `insert_game`
catches it and reports failure with the store untouched, so no
canonical record is produced for this raw document. -/
theorem normalize_illshaped_raises :
    normalizeGame 1 "g" [("metacritic", JVal.jstr "great")] [] 0 =
      Except.error "AttributeError"
    ∧ insert_game ⟨[], [], []⟩ 1 "g" [("metacritic", JVal.jstr "great")] [] 0
        DbFail.nofail = (false, ⟨[], [], []⟩) :=
  ⟨rfl, rfl⟩

/-- C5 witness: the amended theorem applied to the empty detail
document, where every optional container is missing. -/
theorem normalize_total_safe_defaults_witness :
    ∃ row, normalizeGame 7 "w" [] [] 3 = Except.ok row
      ∧ row.metacritic = none
      ∧ row.minimum_requirements = JVal.jstr ""
      ∧ row.price_overview = JVal.jobj [] := by
  obtain ⟨row, hok, h1, h2, h3, h4, h5⟩ :=
    normalize_total_safe_defaults 7 "w" [] [] 3
      ⟨fun v hv => by simp [dget] at hv,
       fun v hv => by simp [dget] at hv,
       fun v hv => by simp [dget] at hv⟩
  exact ⟨row, hok, h1 rfl, (h3 rfl).1, (h4 rfl).1⟩

/-- C2: `insert_game` is transactional: a failed call returns failure
with the store unchanged (both writes rolled back), a successful call
commits the `games` upsert and the conditional `price_history` append
together (tags untouched), and the driver loop reacts to a failed
insert by counting a skip and continuing with the next item on the
unchanged store. -/
theorem insert_game_transactional (st : SteamDb) (app_id : Nat) (nm : String)
    (details review_summary : RawDetail) (now : Nat) :
    (∀ fail, (insert_game st app_id nm details review_summary now fail).1 = false →
      (insert_game st app_id nm details review_summary now fail).2 = st)
    ∧ (∀ fail, (insert_game st app_id nm details review_summary now fail).1 = true →
      ∃ row opr, normalizeGame app_id nm details review_summary now = Except.ok row
        ∧ pricePointOf app_id details = Except.ok opr
        ∧ (insert_game st app_id nm details review_summary now fail).2.games =
            upsertRow st.games row
        ∧ (insert_game st app_id nm details review_summary now fail).2.price_history =
            st.price_history ++ opr.toList
        ∧ (insert_game st app_id nm details review_summary now fail).2.game_tags =
            st.game_tags)
    ∧ (∀ (ft : Bool) (a : AppInput) (rest : List AppInput) (c : Counters)
        (d : RawDetail),
        a.details = some d → d ≠ [] → typeLower d = Except.ok "game" →
        (insert_game st a.app_id a.name d a.review_summary now a.fail).1 = false →
        runApps ft now (a :: rest) st c =
          runApps ft now rest st
            { c with skipped := c.skipped + 1, processed := c.processed + 1 }) := by
  refine ⟨?_, ?_, ?_⟩
  · intro fail hf
    rw [insert_game_fst_false st app_id nm details review_summary now fail hf]
  · intro fail hf
    obtain ⟨row, opr, hn, hp, heq⟩ :=
      insert_game_fst_true st app_id nm details review_summary now fail hf
    exact ⟨row, opr, hn, hp, by rw [heq], by rw [heq], by rw [heq]⟩
  · intro ft a rest c d hd hne htl hins
    have hx := insert_game_fst_false st a.app_id a.name d a.review_summary now a.fail hins
    have hproc : processApp ft now st c a =
        Except.ok (st, { c with skipped := c.skipped + 1, processed := c.processed + 1 }) := by
      unfold processApp
      rw [hd]
      cases d with
      | nil => exact absurd rfl hne
      | cons x xs =>
        simp only [List.isEmpty_cons]
        rw [htl]
        simp only [hx]
        rfl
    show (match processApp ft now st c a with
          | Except.error e => Except.error e
          | Except.ok (st1, c1) => runApps ft now rest st1 c1) =
        runApps ft now rest st
          { c with skipped := c.skipped + 1, processed := c.processed + 1 }
    rw [hproc]

/-- C2 witness: a concrete failed insert leaves the empty store
unchanged, and the driver keeps going (one item processed and skipped)
rather than aborting. -/
theorem insert_game_transactional_witness :
    (insert_game ⟨[], [], []⟩ 1 "g" dPrice [] 5 DbFail.gamesWrite).2 = ⟨[], [], []⟩
    ∧ runApps true 5 [⟨1, "g", some dGame, [], [], DbFail.gamesWrite⟩]
        ⟨[], [], []⟩ ⟨0, 0, 0, 0⟩ = Except.ok (⟨[], [], []⟩, ⟨1, 0, 1, 0⟩) := by
  have h := insert_game_transactional ⟨[], [], []⟩ 1 "g" dPrice [] 5
  refine ⟨h.1 DbFail.gamesWrite rfl, ?_⟩
  have h3 := (insert_game_transactional ⟨[], [], []⟩ 1 "g" dGame [] 5).2.2 true
    ⟨1, "g", some dGame, [], [], DbFail.gamesWrite⟩ [] ⟨0, 0, 0, 0⟩ dGame rfl
    (List.cons_ne_nil _ _) rfl rfl
  exact h3.trans rfl

/-- C3: calling `insert_game` twice with the same canonical data
succeeds, leaves exactly one `games` row for the key — identical to the
single-call row except for the refreshed `last_updated` timestamp —
and appends one (non-deduplicated) `price_history` row per call
whenever the detail document carries a price block, and none when it
does not. -/
theorem insert_game_idempotent_upsert (st : SteamDb) (app_id : Nat) (nm : String)
    (details review_summary : RawDetail) (now1 now2 : Nat)
    (hnd : (st.games.map (fun g => g.app_id)).Nodup)
    (h1 : (insert_game st app_id nm details review_summary now1 DbFail.nofail).1 = true) :
    ∃ row1,
      normalizeGame app_id nm details review_summary now1 = Except.ok row1
      ∧ normalizeGame app_id nm details review_summary now2 =
          Except.ok { row1 with last_updated := now2 }
      ∧ (let st1 := (insert_game st app_id nm details review_summary now1 DbFail.nofail).2
         let r2 := insert_game st1 app_id nm details review_summary now2 DbFail.nofail
         r2.1 = true
         ∧ r2.2.games.countP (fun g => g.app_id = app_id) = 1
         ∧ r2.2.games.find? (fun g => g.app_id = app_id) =
             some { row1 with last_updated := now2 }
         ∧ (∀ pr, pricePointOf app_id details = Except.ok (some pr) →
             r2.2.price_history = st.price_history ++ [pr, pr])
         ∧ (pricePointOf app_id details = Except.ok none →
             r2.2.price_history = st.price_history)) := by
  obtain ⟨row1, opr, hn1, hp, heq1⟩ :=
    insert_game_fst_true st app_id nm details review_summary now1 DbFail.nofail h1
  have hn2 := normalizeGame_time app_id nm details review_summary now1 now2 row1 hn1
  have happ : row1.app_id = app_id :=
    normalizeGame_app_id app_id nm details review_summary now1 row1 hn1
  have happ2 : ({ row1 with last_updated := now2 } : GameRow).app_id = app_id := happ
  have hnd1 : (((insert_game st app_id nm details review_summary now1
      DbFail.nofail).2).games.map (fun g => g.app_id)).Nodup := by
    rw [heq1]
    exact nodup_keys_upsertRow st.games row1 hnd
  refine ⟨row1, hn1, hn2, ?_⟩
  obtain ⟨row2, opr2, hn2x, hp2, heq2⟩ :
      ∃ row2 opr2, normalizeGame app_id nm details review_summary now2 = Except.ok row2
        ∧ pricePointOf app_id details = Except.ok opr2
        ∧ insert_game (insert_game st app_id nm details review_summary now1
            DbFail.nofail).2 app_id nm details review_summary now2 DbFail.nofail =
            (true, { (insert_game st app_id nm details review_summary now1 DbFail.nofail).2
                with
                games := upsertRow (insert_game st app_id nm details review_summary now1
                  DbFail.nofail).2.games row2
                price_history := (insert_game st app_id nm details review_summary now1
                  DbFail.nofail).2.price_history ++ opr2.toList }) := by
    apply insert_game_fst_true
    cases hop : opr with
    | none =>
      simp [insert_game, hn2, hp, hop]
    | some pr =>
      simp [insert_game, hn2, hp, hop]
  have hrow2 : row2 = { row1 with last_updated := now2 } := by
    rw [hn2] at hn2x
    injection hn2x with h
    exact h.symm
  have hopr2 : opr2 = opr := by
    rw [hp] at hp2
    injection hp2 with h
    exact h.symm
  rw [hrow2, hopr2] at heq2
  have hpred : (fun g : GameRow => decide (g.app_id = app_id)) =
      (fun g : GameRow => decide (g.app_id = row1.app_id)) := by
    funext g
    rw [happ]
  refine ⟨by rw [heq2], ?_, ?_, ?_, ?_⟩
  · rw [heq2, hpred]
    exact countP_upsertRow (insert_game st app_id nm details review_summary now1
      DbFail.nofail).2.games { row1 with last_updated := now2 } hnd1
  · rw [heq2, hpred]
    exact find?_upsertRow (insert_game st app_id nm details review_summary now1
      DbFail.nofail).2.games { row1 with last_updated := now2 }
  · intro pr hpr
    rw [hp] at hpr
    injection hpr with h
    rw [heq2, heq1]
    simp [h, List.append_assoc]
  · intro hpr
    rw [hp] at hpr
    injection hpr with h
    rw [heq2, heq1]
    simp [h]

/-- C3 witness: two inserts of the same priced item into the empty
store leave one row for the key and two identical price rows. -/
theorem insert_game_idempotent_upsert_witness :
    ∃ row1, normalizeGame 1 "g" dPrice [] 1 = Except.ok row1
      ∧ (insert_game (insert_game ⟨[], [], []⟩ 1 "g" dPrice [] 1 DbFail.nofail).2
          1 "g" dPrice [] 2 DbFail.nofail).2.games.countP (fun g => g.app_id = 1) = 1
      ∧ (insert_game (insert_game ⟨[], [], []⟩ 1 "g" dPrice [] 1 DbFail.nofail).2
          1 "g" dPrice [] 2 DbFail.nofail).2.price_history = [prWitness, prWitness] := by
  obtain ⟨row1, ha, hb, hc⟩ :=
    insert_game_idempotent_upsert ⟨[], [], []⟩ 1 "g" dPrice [] 1 2 (by simp) rfl
  refine ⟨row1, ha, hc.2.1, ?_⟩
  have := hc.2.2.2.1 prWitness rfl
  simpa using this

/-- C7: the batch driver persists an entry only when its detail type,
lowercased, is "game": missing or empty details and any other type are
counted as skipped with no store write; a "game"-typed entry whose
optional fields are all absent is persisted with null/empty-JSON
defaults in every optional column. -/
theorem driver_kind_filter (ft : Bool) (now : Nat) (st : SteamDb) (c : Counters) :
    (∀ a : AppInput, a.details = none →
      processApp ft now st c a =
        Except.ok (st, { c with skipped := c.skipped + 1, processed := c.processed + 1 }))
    ∧ (∀ a : AppInput, a.details = some [] →
      processApp ft now st c a =
        Except.ok (st, { c with skipped := c.skipped + 1, processed := c.processed + 1 }))
    ∧ (∀ (a : AppInput) (d : RawDetail) (s : String), a.details = some d → d ≠ [] →
      typeLower d = Except.ok s → s ≠ "game" →
      processApp ft now st c a =
        Except.ok (st, { c with skipped := c.skipped + 1, processed := c.processed + 1 }))
    ∧ (∀ (app_id : Nat) (nm : String) (ty : String), pyLower ty = "game" →
      processApp ft now st c
          ⟨app_id, nm, some [("type", JVal.jstr ty)], [], [], DbFail.nofail⟩ =
        Except.ok ({ st with games := upsertRow st.games (onlyTypeRow app_id nm ty now) },
          { c with successful := c.successful + 1, processed := c.processed + 1 })) := by
  refine ⟨?_, ?_, ?_, ?_⟩
  · intro a hd
    unfold processApp
    rw [hd]
  · intro a hd
    unfold processApp
    rw [hd]
    rfl
  · intro a d s hd hne htl hs
    unfold processApp
    rw [hd]
    cases d with
    | nil => exact absurd rfl hne
    | cons x xs =>
      simp only [List.isEmpty_cons]
      rw [htl]
      simp [hs]
  · intro app_id nm ty hty
    have htl : typeLower [("type", JVal.jstr ty)] = Except.ok "game" := by
      show Except.ok (pyLower ty) = Except.ok "game"
      rw [hty]
    have hins : insert_game st app_id nm [("type", JVal.jstr ty)] [] now DbFail.nofail =
        (true, { st with games := upsertRow st.games (onlyTypeRow app_id nm ty now) }) :=
      rfl
    cases ft with
    | false =>
      unfold processApp
      simp only [htl, hins]
      simp
    | true =>
      unfold processApp
      simp only [htl, hins]
      simp

/-- C7 witness: a "dlc"-typed entry is skipped with no store write; a
"Game"-typed entry with no optional data is persisted with its
defaults. -/
theorem driver_kind_filter_witness :
    processApp true 0 ⟨[], [], []⟩ ⟨0, 0, 0, 0⟩
        ⟨2, "d", some [("type", JVal.jstr "DLC")], [], [], DbFail.nofail⟩ =
      Except.ok (⟨[], [], []⟩, ⟨1, 0, 1, 0⟩)
    ∧ processApp true 0 ⟨[], [], []⟩ ⟨0, 0, 0, 0⟩
        ⟨3, "w", some [("type", JVal.jstr "Game")], [], [], DbFail.nofail⟩ =
      Except.ok (⟨[onlyTypeRow 3 "w" "Game" 0], [], []⟩, ⟨1, 1, 0, 0⟩) := by
  have h := driver_kind_filter true 0 ⟨[], [], []⟩ ⟨0, 0, 0, 0⟩
  constructor
  · exact h.2.2.1 ⟨2, "d", some [("type", JVal.jstr "DLC")], [], [], DbFail.nofail⟩
      [("type", JVal.jstr "DLC")] "dlc" rfl (List.cons_ne_nil _ _) rfl (by decide)
  · exact (h.2.2.2 3 "w" "Game" rfl).trans rfl

/-- C8 counterexample: with an empty tag list, `update_game_tags`
returns success immediately and does not delete the item's existing tag
rows, contradicting the unconditional delete-then-insert reading. -/
theorem update_game_tags_empty_noop :
    (update_game_tags [(1, "x")] 1 []).2 = [(1, "x")]
    ∧ [(1, "x")] ≠ ([] : List (Nat × String)) :=
  ⟨rfl, by decide⟩

/-- C8 (amended): for every nonempty tag list, `update_game_tags`
deletes all existing tag rows of the item and inserts the new set
(duplicate pairs silently ignored; other items' rows untouched), while
`insert_game_tags` inserts the set directly with no preceding delete
(existing rows are kept, duplicates silently ignored); with an empty
tag list both return success without touching the table. -/
theorem replace_tags_spec (tbl : List (Nat × String)) (app_id : Nat)
    (tags : List String) (htags : tags ≠ []) :
    ((update_game_tags tbl app_id tags).1 = true
      ∧ (∀ t, (app_id, t) ∈ (update_game_tags tbl app_id tags).2 ↔ t ∈ tags)
      ∧ (update_game_tags tbl app_id tags).2.filter (fun p => p.1 ≠ app_id) =
          tbl.filter (fun p => p.1 ≠ app_id)
      ∧ (tbl.Nodup → (update_game_tags tbl app_id tags).2.Nodup))
    ∧ ((insert_game_tags tbl app_id tags).1 = true
      ∧ (∀ p : Nat × String, p ∈ (insert_game_tags tbl app_id tags).2 ↔
          p ∈ tbl ∨ (p.1 = app_id ∧ p.2 ∈ tags))
      ∧ (tbl.Nodup → (insert_game_tags tbl app_id tags).2.Nodup))
    ∧ update_game_tags tbl app_id [] = (true, tbl)
    ∧ insert_game_tags tbl app_id [] = (true, tbl) := by
  have hne : tags.isEmpty = false := by
    cases tags with
    | nil => exact absurd rfl htags
    | cons t ts => rfl
  have hu : update_game_tags tbl app_id tags =
      (true, insertTagsConflictIgnore (tbl.filter (fun p => p.1 ≠ app_id)) app_id tags) := by
    unfold update_game_tags
    rw [hne]
    rfl
  have hi : insert_game_tags tbl app_id tags =
      (true, insertTagsConflictIgnore tbl app_id tags) := by
    unfold insert_game_tags
    rw [hne]
    rfl
  refine ⟨⟨by rw [hu], ?_, ?_, ?_⟩, ⟨by rw [hi], ?_, ?_⟩, rfl, rfl⟩
  · intro t
    rw [hu]
    rw [mem_insertTagsConflictIgnore]
    constructor
    · rintro (h | ⟨_, h⟩)
      · exfalso
        have := (List.mem_filter.mp h).2
        simp at this
      · exact h
    · intro ht
      exact Or.inr ⟨rfl, ht⟩
  · rw [hu]
    rw [filter_ne_insertTagsConflictIgnore]
    simp [List.filter_filter]
  · intro hnd
    rw [hu]
    exact nodup_insertTagsConflictIgnore tags _ app_id (hnd.filter _)
  · intro p
    rw [hi]
    exact mem_insertTagsConflictIgnore tags tbl app_id p
  · intro hnd
    rw [hi]
    exact nodup_insertTagsConflictIgnore tags tbl app_id hnd

/-- C8 witness: the amended behaviour on a concrete table — the full
re-sync replaces the item's rows (duplicates collapsed, old row gone),
the first-time insert keeps existing rows. -/
theorem replace_tags_spec_witness :
    ((1, "a") ∈ (update_game_tags [(1, "old"), (2, "z")] 1 ["a", "a"]).2)
    ∧ ¬ ((1, "old") ∈ (update_game_tags [(1, "old"), (2, "z")] 1 ["a", "a"]).2)
    ∧ ((1, "old") ∈ (insert_game_tags [(1, "old"), (2, "z")] 1 ["a"]).2) := by
  have h := replace_tags_spec [(1, "old"), (2, "z")] 1 ["a", "a"]
    (List.cons_ne_nil _ _)
  have h2 := replace_tags_spec [(1, "old"), (2, "z")] 1 ["a"]
    (List.cons_ne_nil _ _)
  refine ⟨(h.1.2.1 "a").mpr (by decide), ?_, ?_⟩
  · intro hmem
    have := (h.1.2.1 "old").mp hmem
    simp at this
  · exact (h2.2.1.2.1 (1, "old")).mpr (Or.inl (by decide))

/-- C1: the Item-to-PendingRecheck move is all-or-nothing: every item
selected by the staleness sweep ends up in the checking table and is
gone from the main games table after a successful run, and if the
insert into the checking table fails, the whole transaction rolls back
and both tables are exactly as before (the call reports 0 moved). -/
theorem move_coming_soon_atomic (st : CheckDb) (today : Nat) (g : GameRow)
    (hg : g ∈ selectStale st.games today) :
    (g ∈ (move_coming_soon_games_to_checking_table st today MoveFail.nofail).2.checking
      ∧ (∀ g2 ∈ (move_coming_soon_games_to_checking_table st today
            MoveFail.nofail).2.games, g2.app_id ≠ g.app_id))
    ∧ move_coming_soon_games_to_checking_table st today MoveFail.insertFail = (0, st)
    ∧ move_coming_soon_games_to_checking_table st today MoveFail.deleteFail = (0, st) := by
  have hsel : (selectStale st.games today).isEmpty = false := by
    cases hs : selectStale st.games today with
    | nil => rw [hs] at hg; cases hg
    | cons x xs => rfl
  have hmemg : g ∈ st.games := mem_selectStale st.games today g hg
  have hid : g.app_id ∈ (selectStale st.games today).map (fun g => g.app_id) :=
    List.mem_map_of_mem (fun g => g.app_id) hg
  have hnofail : move_coming_soon_games_to_checking_table st today MoveFail.nofail =
      ((st.games.filter (fun g2 =>
          g2.app_id ∈ (selectStale st.games today).map (fun g3 => g3.app_id))).length,
       { games := st.games.filter (fun g2 =>
           g2.app_id ∉ (selectStale st.games today).map (fun g3 => g3.app_id))
         checking := st.checking ++ st.games.filter (fun g2 =>
           g2.app_id ∈ (selectStale st.games today).map (fun g3 => g3.app_id)) }) := by
    unfold move_coming_soon_games_to_checking_table
    simp only [hsel]
    rfl
  refine ⟨⟨?_, ?_⟩, ?_, ?_⟩
  · rw [hnofail]
    apply List.mem_append.mpr
    right
    exact List.mem_filter.mpr ⟨hmemg, by simpa using hid⟩
  · intro g2 hg2
    rw [hnofail] at hg2
    have hnot := (List.mem_filter.mp hg2).2
    intro heq
    rw [heq] at hnot
    simp [hid] at hnot
  · unfold move_coming_soon_games_to_checking_table
    simp only [hsel]
    rfl
  · unfold move_coming_soon_games_to_checking_table
    simp only [hsel]
    rfl

/-- C1 witness: a concrete stale coming-soon row is moved into the
checking table on success and left in place on a failed insert. -/
theorem move_coming_soon_atomic_witness :
    (staleRow 1 ∈ (move_coming_soon_games_to_checking_table ⟨[staleRow 1], []⟩ 10
        MoveFail.nofail).2.checking)
    ∧ move_coming_soon_games_to_checking_table ⟨[staleRow 1], []⟩ 10
        MoveFail.insertFail = (0, ⟨[staleRow 1], []⟩) := by
  have hg : staleRow 1 ∈ selectStale [staleRow 1] 10 := by
    have hsel : selectStale [staleRow 1] 10 = [staleRow 1] := rfl
    rw [hsel]
    exact List.mem_singleton.mpr rfl
  have h := move_coming_soon_atomic ⟨[staleRow 1], []⟩ 10 (staleRow 1) hg
  exact ⟨h.1.1, h.2.1⟩

/-- Splitting a list by a Boolean predicate preserves its length. -/
theorem length_filter_not_add {α : Type} (l : List α) (q : α → Bool) :
    (l.filter (fun x => !(q x))).length + (l.filter q).length = l.length := by
  induction l with
  | nil => rfl
  | cons x xs ih =>
    cases hq : q x <;> simp [List.filter_cons, hq] <;> omega

/-- C6: the staging merge inserts exactly the staged records whose
natural key (fs_id, change_date, title) is not already in the main
table, keeps every pre-existing main row (so a key that had exactly one
main row still has exactly one), silently drops key-matching staged
records, and reports an inserted count that excludes the dropped
records. -/
theorem merge_staging_dedup (db : NintendoDb) (s : NRecord) :
    (s ∈ db.staging → (db.main.any (fun m => sameKey m s)) = false →
      s ∈ (merge_staging_to_main db false).2.main)
    ∧ ((db.main.any (fun m => sameKey m s)) = true →
      (merge_staging_to_main db false).2.main.countP (fun m => sameKey m s) =
        db.main.countP (fun m => sameKey m s))
    ∧ (∀ m ∈ db.main, m ∈ (merge_staging_to_main db false).2.main)
    ∧ (merge_staging_to_main db false).1 +
        (db.staging.filter (fun s2 => db.main.any (fun m => sameKey m s2))).length =
        db.staging.length := by
  have hm : merge_staging_to_main db false =
      ((db.staging.filter (fun s2 => !(db.main.any (fun m => sameKey m s2)))).length,
       { main := db.main ++
           db.staging.filter (fun s2 => !(db.main.any (fun m => sameKey m s2)))
         staging := db.staging }) := rfl
  refine ⟨?_, ?_, ?_, ?_⟩
  · intro hs hnot
    rw [hm]
    apply List.mem_append.mpr
    right
    exact List.mem_filter.mpr ⟨hs, by simp [hnot]⟩
  · intro hany
    rw [hm]
    show (db.main ++ db.staging.filter (fun s2 =>
        !(db.main.any (fun m => sameKey m s2)))).countP (fun m => sameKey m s) =
      db.main.countP (fun m => sameKey m s)
    rw [List.countP_append]
    have h0 : (db.staging.filter (fun s2 =>
        !(db.main.any (fun m => sameKey m s2)))).countP (fun m => sameKey m s) = 0 := by
      rw [List.countP_eq_zero]
      intro t ht hts
      have h1 := (List.mem_filter.mp ht).2
      rcases List.any_eq_true.mp hany with ⟨m0, hm0, hm0s⟩
      have h2 : db.main.any (fun m => sameKey m t) = true :=
        List.any_eq_true.mpr ⟨m0, hm0, sameKey_trans_right hm0s hts⟩
      rw [h2] at h1
      simp at h1
    rw [h0]
    omega
  · intro m hmm
    rw [hm]
    exact List.mem_append.mpr (Or.inl hmm)
  · rw [hm]
    exact length_filter_not_add db.staging
      (fun s2 => db.main.any (fun m => sameKey m s2))

/-- C6 witness: two staged records with keys k1 and k2, with k1 already
in the main table — k2 is inserted and the main table still holds
exactly one row with key k1 afterwards. -/
theorem merge_staging_dedup_witness :
    (nrecMk "k2" "d" "t" ∈ (merge_staging_to_main
        ⟨[nrecMk "k1" "d" "t"], [nrecMk "k1" "d" "t", nrecMk "k2" "d" "t"]⟩
        false).2.main)
    ∧ (merge_staging_to_main
        ⟨[nrecMk "k1" "d" "t"], [nrecMk "k1" "d" "t", nrecMk "k2" "d" "t"]⟩
        false).2.main.countP (fun m => sameKey m (nrecMk "k1" "d" "t")) =
      [nrecMk "k1" "d" "t"].countP (fun m => sameKey m (nrecMk "k1" "d" "t")) := by
  have h := merge_staging_dedup
    ⟨[nrecMk "k1" "d" "t"], [nrecMk "k1" "d" "t", nrecMk "k2" "d" "t"]⟩
    (nrecMk "k2" "d" "t")
  have h2 := merge_staging_dedup
    ⟨[nrecMk "k1" "d" "t"], [nrecMk "k1" "d" "t", nrecMk "k2" "d" "t"]⟩
    (nrecMk "k1" "d" "t")
  exact ⟨h.1 (by simp) rfl, h2.2.1 rfl⟩
